import Mathlib

/-!
Shallow embedding of `src/fifoirc.c` (James Stanley's fifoirc bridge).

Byte strings are modelled as `List Char` (each `Char` stands for one byte;
none of the program's data paths relevant to the claims involve NUL bytes).
File descriptors are modelled as explicit byte streams (`List Char`): a
`read` of one byte takes the head of the stream, and an empty stream is
end-of-file.  `exit` codes: `EXIT_SUCCESS = 0`, `EXIT_FAILURE = 1`.
-/

/-- Byte strings, one `Char` per byte. -/
abbrev Str := List Char

/-- Literal helper: the byte string of a Lean string literal. -/
def str (s : String) : Str := s.toList

/-- Model of C `strchr`: index of the first occurrence of `c` in the
C string `s` (`none` when absent). -/
def strchrPos (s : Str) (c : Char) : Option Nat :=
  match s with
  | [] => none
  | a :: t => if a = c then some 0 else (strchrPos t c).map (· + 1)

/-- Loop of `get_line` (fifoirc.c:161):
`while(--len && (n = read(fd, buf, 1)) == 1 && *buf++ != '\n');`.
`len` is the remaining capacity, `buf` the bytes stored so far, `s` the
unread stream, and `n` the value of the C variable `n` (`none` while it is
still uninitialized, `some true` after a read that returned 1, `some false`
after a read that hit end-of-stream). -/
def get_line_loop : Nat → Str → Str → Option Bool → Str × Str × Option Bool
  | 0, buf, s, n => (buf, s, n)
  | len + 1, buf, s, n =>
    if len = 0 then (buf, s, n)
    else
      match s with
      | [] => (buf, s, some false)
      | c :: rest =>
        if c = '\n' then (buf ++ [c], rest, some true)
        else get_line_loop len (buf ++ [c]) rest (some true)

/-- Model of `get_line` (fifoirc.c:158-165): reads single bytes from the
stream into a buffer of capacity `len` until a line feed is stored, the
buffer is full (at most `len - 1` bytes are stored, the last slot holds the
terminating NUL), or end-of-stream.  Returns the stored C string, the
unread remainder of the stream, and the success flag (`n == 1`; the C
code returns `0` on success, `-1` otherwise).  All callers in the program
pass `len ≥ 2`, so the uninitialized-`n` case is never reached there. -/
def get_line (s : Str) (len : Nat) : Str × Str × Bool :=
  ((get_line_loop len [] s none).1, (get_line_loop len [] s none).2.1,
   (get_line_loop len [] s none).2.2 == some true)

/-- Model of `snprintf(msg, BUFLEN, ...)` with `BUFLEN = 1024`
(fifoirc.c:25): the stored C string is the first 1023 bytes of the
formatted text. -/
def snprintf1023 (s : Str) : Str := s.take 1023

/-- Model of `irc_write` (fifoirc.c:180-188): the bytes put on the wire for
a given text are `snprintf(msg, BUFLEN, "%s\r\n", text)`, i.e. the text
followed by CRLF, truncated to 1023 bytes. -/
def irc_write (text : Str) : Str := (text ++ str "\r\n").take 1023

/-- Test used by `strpbrk(line, "\r\n")` (fifoirc.c:232): is this byte a
carriage return or a line feed? -/
def crlfByte (c : Char) : Bool := c == '\r' || c == '\n'

/-- The configuration record built by `main` from the command line:
the static globals of fifoirc.c:27-33 that the connection logic reads. -/
structure Config where
  server : Str
  nickname : Str
  fullname : Str
  channel : Str
  nspasswd : Option Str
  reconnect : Bool
deriving DecidableEq

/-- The texts passed to `irc_write` by `irc_connect` (fifoirc.c:196-210),
in order: NICK, USER, the NickServ identify message when a password is
configured, then JOIN.  Each is formatted by `snprintf(msg, BUFLEN, ...)`. -/
def irc_connect_msgs (cfg : Config) : List Str :=
  [snprintf1023 (str "NICK " ++ cfg.nickname),
   snprintf1023 (str "USER " ++ (cfg.nickname ++ (str " localhost " ++
     (cfg.server ++ (str " :" ++ cfg.fullname)))))]
  ++ (match cfg.nspasswd with
      | some pw =>
        [snprintf1023 (str "PRIVMSG NickServ :identify " ++
           (cfg.nickname ++ (str " " ++ pw)))]
      | none => [])
  ++ [snprintf1023 (str "JOIN " ++ cfg.channel)]

/-- Model of `irc_connect` (fifoirc.c:190-213).  `connectOk` abstracts the
outcome of `make_tcp` (DNS resolution, socket creation, TCP connect); on
failure the process calls `exit(EXIT_FAILURE)`, modelled as
`Except.error 1`.  On success the registration messages are sent in order
and `recv_time = time(NULL)` is reset to `now`. -/
def irc_connect (cfg : Config) (connectOk : Bool) (now : Nat) :
    Except Nat (List Str × Nat) :=
  if connectOk then Except.ok (irc_connect_msgs cfg, now) else Except.error 1

/-- Model of `irc_disconnect` (fifoirc.c:215-222): with `-r` the full
connect handshake is re-run, otherwise the process exits with
`EXIT_FAILURE`. -/
def irc_disconnect (cfg : Config) (connectOk : Bool) (now : Nat) :
    Except Nat (List Str × Nat) :=
  if cfg.reconnect then irc_connect cfg connectOk now else Except.error 1

/-- Observable effects of one `irc_handle` call on an incoming line:
the texts passed to `irc_write` in order, the byte strings written to the
program stream (`write(program_fd, ...)` is executed whether or not a
program is configured; with no program the descriptor is -1 and the write
fails silently), and whether a NULL-pointer dereference was reached. -/
structure HandleResult where
  ircMsgs : List Str
  progMsgs : List Str
  crash : Bool
deriving DecidableEq

/-- Model of the parsing part of `irc_handle` (fifoirc.c:224-259), applied
to the C string that `get_line` stored in `line`.  Steps, in source order:
truncate at the first CR or LF (`strpbrk`); if the line starts with
"PING " overwrite byte 1 with 'O' and send the line; find the first space;
if the nine bytes there are " PRIVMSG ", execute `*endline = '\n';
*(endline + 1) = '\0';` (a NULL dereference when no CR/LF was found),
search for ':' from the space onwards, forward the text after it to the
program stream, and compare the suffix at the colon with ":\x01VERSION\x01\n"
(`strcmp` dereferences NULL when no colon was found); on a match, extract
the nick between index 1 and the first '!' and send a NOTICE built by
`snprintf(msg, BUFLEN, ...)`. -/
def irc_handle (buf : Str) : HandleResult :=
  let hasEnd := buf.any crlfByte
  let line0 := buf.takeWhile (fun c => !crlfByte c)
  let line1 := if line0.take 5 = str "PING " then line0.set 1 'O' else line0
  let pingMsgs := if line0.take 5 = str "PING " then [line1] else []
  match strchrPos line1 ' ' with
  | none => ⟨pingMsgs, [], false⟩
  | some j =>
    if (line1.drop j).take 9 = str " PRIVMSG " then
      if hasEnd then
        let line2 := line1 ++ ['\n']
        match strchrPos (line2.drop j) ':' with
        | none => ⟨pingMsgs, [], true⟩
        | some r =>
          let progMsgs := [line2.drop (j + r + 1)]
          if line2.drop (j + r) = str ":\x01VERSION\x01\n" then
            let nick :=
              match strchrPos line2 '!' with
              | none => line2.drop 1
              | some 0 => line2.drop 1
              | some (m + 1) => (line2.take (m + 1)).drop 1
            ⟨pingMsgs ++
               [snprintf1023 (str "NOTICE " ++
                  (nick ++ str " :\x01VERSION fifoirc\x01"))],
             progMsgs, false⟩
          else ⟨pingMsgs, progMsgs, false⟩
      else ⟨pingMsgs, [], true⟩
    else ⟨pingMsgs, [], false⟩

/-- Model of `text_handle` (fifoirc.c:261-280) on a local input stream:
`snprintf(line, 450, "PRIVMSG %s :", channel)` writes the addressing
prefix (its return value `len` is the untruncated length `10 + |channel|`;
`main` guarantees `|channel| ≤ 200`, and when the prefix would not fit the
C code indexes past the buffer, which the model excludes by returning
`none`); `get_line(fd, line + len, 450 - len)` appends the local line; the
first '\n' is replaced by NUL (`strchr`); the result is the text passed to
`irc_write`, paired with the unread remainder of the stream. -/
def text_handle (channel : Str) (stream : Str) : Option (Str × Str) :=
  if 10 + channel.length < 450 then
    let pre := str "PRIVMSG " ++ (channel ++ str " :")
    let r := get_line stream (450 - (10 + channel.length))
    some ((pre ++ r.1).takeWhile (fun c => c != '\n'), r.2.1)
  else none

/-- Outcome of poll in `main`'s loop (fifoirc.c:379-392) for the two cases
the claims are about: `poll` returned -1, or it returned 0 (timeout, no
source ready).  The ready case dispatches to `text_handle` / `irc_handle`,
modelled separately above. -/
inductive PollOutcome
  | pollError
  | pollTimeout
deriving DecidableEq

/-- Result of one loop iteration: either the loop continues (texts passed
to `irc_write`, new `recv_time`), or the process terminates (texts written
on the way out, exit status). -/
inductive StepResult
  | cont (msgs : List Str) (recvTime : Nat)
  | halt (msgs : List Str) (code : Nat)
deriving DecidableEq

/-- Messages sent during a step. -/
def StepResult.sent : StepResult → List Str
  | .cont m _ => m
  | .halt m _ => m

/-- Exit status of a step, when the process terminated. -/
def StepResult.exitCode : StepResult → Option Nat
  | .cont _ _ => none
  | .halt _ c => some c

/-- Model of the poll-error and poll-timeout branches of `main`'s loop
(fifoirc.c:381-392).  On `poll == -1`: `perror` then `break`, after which
`main` falls through to `quit(0)` (fifoirc.c:282-286, 409), which sends
"QUIT" and calls `exit(EXIT_SUCCESS)`.  On timeout: if
`time(NULL) > recv_time + 600` run `irc_disconnect` (which either re-runs
the connect handshake or exits with `EXIT_FAILURE`), then send
`snprintf(msg, BUFLEN, "PING :%s", server)`. -/
def main_step (cfg : Config) (connectOk : Bool) (now recvTime : Nat) :
    PollOutcome → StepResult
  | .pollError => .halt [str "QUIT"] 0
  | .pollTimeout =>
    match (if recvTime + 600 < now then irc_disconnect cfg connectOk now
           else Except.ok ([], recvTime)) with
    | .error c => .halt [] c
    | .ok (msgs, rt) =>
      .cont (msgs ++ [snprintf1023 (str "PING :" ++ cfg.server)]) rt

/-- Does a sent text look like a keepalive probe (first five bytes
"PING ")? -/
def pingTest (s : Str) : Bool := s.take 5 == str "PING "

/-- Number of keepalive probes sent during a step. -/
def probeCount (r : StepResult) : Nat := r.sent.countP pingTest

/-- Sample configuration: reconnect enabled, no NickServ password. -/
def cfgW : Config :=
  ⟨str "irc.example", str "bot", str "Bot Name", str "#test", none, true⟩

/-- Sample configuration: reconnect enabled, NickServ password set. -/
def cfgP : Config :=
  ⟨str "irc.example", str "bot", str "Bot Name", str "#test",
   some (str "hunter2"), true⟩

/-- Sample configuration: reconnect disabled. -/
def cfgNoRe : Config :=
  ⟨str "irc.example", str "bot", str "Bot Name", str "#test", none, false⟩

/-- A 1023-byte remote line (the largest C string `get_line` can store in
the 1024-byte `line` buffer) that contains " PRIVMSG " after its first
space but no CR or LF anywhere. -/
def longLine : Str := str "a PRIVMSG " ++ List.replicate 1013 'b'

/-! ## Helper lemmas -/

/-- An `snprintf` into `BUFLEN` does not truncate text shorter than 1024. -/
lemma snprintf1023_eq (l : Str) (h : l.length ≤ 1023) : snprintf1023 l = l :=
  List.take_of_length_le h

/-- `takeWhile` keeps an initial segment whose bytes all satisfy `p` and
stops exactly at the first byte that does not. -/
lemma takeWhile_append_cons (p : Char → Bool) (a : Str) (x : Char) (b : Str)
    (ha : ∀ c ∈ a, p c = true) (hx : p x = false) :
    (a ++ x :: b).takeWhile p = a := by
  induction a with
  | nil => simp [List.takeWhile_cons, hx]
  | cons c t ih =>
    have hc := ha c (by simp)
    have ht := ih (fun d hd => ha d (by simp [hd]))
    simp [List.takeWhile_cons, hc, ht]

/-- The `get_line` loop stores every byte it consumes: the stored buffer
followed by the unread remainder is the original buffer-plus-stream. -/
lemma get_line_loop_append (len : Nat) (buf s : Str) (n : Option Bool) :
    (get_line_loop len buf s n).1 ++ (get_line_loop len buf s n).2.1 =
      buf ++ s := by
  induction len generalizing buf s n with
  | zero => simp [get_line_loop]
  | succ l ih =>
    by_cases hl : l = 0
    · simp [get_line_loop, hl]
    · cases s with
      | nil => simp [get_line_loop, hl]
      | cons c rest =>
        by_cases hc : c = '\n'
        · simp [get_line_loop, hl, hc]
        · simp [get_line_loop, hl, hc, ih]

/-- When the stream holds a complete line that fits the buffer (content
plus line feed plus the NUL slot), the `get_line` loop stores the whole
line including its terminator and leaves exactly the rest unread. -/
lemma get_line_loop_complete (L rest buf : Str) (cap : Nat) (n : Option Bool)
    (h1 : '\n' ∉ L) (h2 : L.length + 2 ≤ cap) :
    get_line_loop cap buf (L ++ '\n' :: rest) n =
      (buf ++ (L ++ ['\n']), rest, some true) := by
  induction L generalizing cap buf n with
  | nil =>
    obtain ⟨l, rfl⟩ : ∃ l, cap = l + 1 := ⟨cap - 1, by omega⟩
    have hl : l ≠ 0 := by omega
    simp [get_line_loop, hl]
  | cons a t ih =>
    obtain ⟨l, rfl⟩ : ∃ l, cap = l + 1 := ⟨cap - 1, by omega⟩
    have hl : l ≠ 0 := by omega
    have ha : a ≠ '\n' := fun h => h1 (by simp [h])
    have ht : '\n' ∉ t := fun h => h1 (by simp [h])
    have h2t : t.length + 2 ≤ l := by simp at h2; omega
    simp [get_line_loop, hl, ha, ih (buf ++ [a]) l (some true) ht h2t]

/-- `get_line` on a stream whose first line fits the destination buffer
returns that line with its terminator, succeeds, and consumes nothing
beyond the terminator. -/
lemma get_line_complete (L rest : Str) (cap : Nat)
    (h1 : '\n' ∉ L) (h2 : L.length + 2 ≤ cap) :
    get_line (L ++ '\n' :: rest) cap = (L ++ ['\n'], rest, true) := by
  simp [get_line, get_line_loop_complete L rest [] cap none h1 h2]

/-! ## Claim theorems -/

/-- C6, counterexample.  The claim says that once the destination buffer is
full, the remaining bytes of the current line are consumed and dropped
until a terminator is seen, so they never reappear at the start of a later
returned line.  With capacity 5 and stream "abcdefg\nxy\n", the first call
stores "abcd" and stops; the very next call returns "efg\n" — the bytes
between the truncation point and the terminator reappear at the start of
the next returned line. -/
theorem get_line_truncation_counterexample :
    (get_line (str "abcdefg\nxy\n") 5).1 = str "abcd"
    ∧ (get_line ((get_line (str "abcdefg\nxy\n") 5).2.1) 5).1 = str "efg\n"
    ∧ str "efg\n" ≠ str "xy\n" := by decide

/-- C6, amended.  `get_line` enforces the maximum line length per
destination buffer (at most `len - 1` bytes stored), but it never discards
input: every byte it consumes from the stream is stored in the buffer, so
when the buffer fills mid-line the unread remainder of the line stays in
the stream and is returned at the start of the next call. -/
theorem get_line_no_discard (s : Str) (len : Nat) :
    (get_line s len).1 ++ (get_line s len).2.1 = s := by
  have h := get_line_loop_append len [] s none
  simpa [get_line] using h

/-- C7, counterexample.  The claim says a readiness-wait (`poll`) failure
terminates the process with failure status.  In the code, `poll == -1`
logs the error and breaks out of the loop, after which `main` runs
`quit(0)`: it sends "QUIT" and calls `exit(EXIT_SUCCESS)` — the exit
status is 0, not a failure status. -/
theorem poll_fail_exit_status :
    (main_step cfgW true 0 0 PollOutcome.pollError).exitCode = some 0
    ∧ (main_step cfgW true 0 0 PollOutcome.pollError).exitCode ≠ some 1 := by
  decide

/-- C7, amended.  A readiness-wait failure causes the program to log the
error and terminate — with SUCCESS status (exit code 0), not failure —
after the best-effort termination message "QUIT" (wire bytes
"QUIT\r\n") to the existing connection. -/
theorem poll_fail_quit (cfg : Config) (connectOk : Bool) (now recvTime : Nat) :
    main_step cfg connectOk now recvTime PollOutcome.pollError =
      StepResult.halt [str "QUIT"] 0
    ∧ irc_write (str "QUIT") = str "QUIT\r\n" := ⟨rfl, by decide⟩

/-- C8.  On the incoming line ":alice!u@h PRIVMSG bot :\x01VERSION\x01"
(CRLF-terminated on the wire), `irc_handle` extracts the sender between
the leading colon and the '!' and replies with a NOTICE to "alice"
carrying the fixed version payload; the body is also forwarded to the
program stream with a trailing line feed, and no crash occurs. -/
theorem ctcp_version_reply :
    irc_handle (str ":alice!u@h PRIVMSG bot :\x01VERSION\x01\r\n") =
      ⟨[str "NOTICE alice :\x01VERSION fifoirc\x01"],
       [str "\x01VERSION\x01\n"], false⟩ := by decide

set_option maxRecDepth 100000 in
/-- C10.  The directed-message handler assumes a ':' after the first space
and a CR/LF in the buffered line.  For "a PRIVMSG b hello\r\n" (PRIVMSG
but no colon after the first space) `p = strchr(p, ':')` yields NULL and
the unguarded `strcmp(p, ":\x01VERSION\x01\n")` dereferences it; for a
1023-byte line with no terminator (the most the 1024-byte buffer can
hold), `endline` is NULL and `*endline = '\n'` dereferences it.  Both
reach the error branch of the embedding. -/
theorem privmsg_null_deref :
    (irc_handle (str "a PRIVMSG b hello\r\n")).crash = true
    ∧ (irc_handle longLine).crash = true
    ∧ longLine.length = 1023 := by decide

/-- When the (CR/LF-truncated) line starts with the five bytes "PING ",
the first text `irc_handle` passes to `irc_write` is that line with byte 1
overwritten by 'O', whatever the rest of the handler does afterwards. -/
lemma irc_handle_ping_head (buf : Str)
    (h : ((buf.takeWhile (fun c => !crlfByte c)).take 5) = str "PING ") :
    (irc_handle buf).ircMsgs.head? =
      some ((buf.takeWhile (fun c => !crlfByte c)).set 1 'O') := by
  simp only [irc_handle, h, if_pos]
  split
  · simp
  · split
    · split
      · split
        · simp
        · split <;> simp
      · simp
    · simp

/-- C2.  For every incoming remote line whose leading token is "PING"
(i.e. the line reads "PING " followed by the probe's argument `rest`,
CRLF-terminated on the wire), the reply sent first is the line with only
byte 1 replaced ('I' → 'O'), i.e. exactly "PONG " followed by `rest`
unchanged. -/
theorem ping_reply (rest : Str) (h1 : '\r' ∉ rest) (h2 : '\n' ∉ rest) :
    (irc_handle ((str "PING " ++ rest) ++ str "\r\n")).ircMsgs.head? =
      some (str "PONG " ++ rest) := by
  have hline0 : ((str "PING " ++ rest) ++ str "\r\n").takeWhile
      (fun c => !crlfByte c) = str "PING " ++ rest := by
    have hb : (str "PING " ++ rest) ++ str "\r\n" =
        (str "PING " ++ rest) ++ '\r' :: str "\n" := rfl
    rw [hb]
    refine takeWhile_append_cons _ _ _ _ ?_ (by decide)
    intro c hc
    rcases List.mem_append.mp hc with h | h
    · have : c = 'P' ∨ c = 'I' ∨ c = 'N' ∨ c = 'G' ∨ c = ' ' := by
        simpa [str] using h
      rcases this with rfl | rfl | rfl | rfl | rfl <;> decide
    · have hcr : c ≠ '\r' := fun e => h1 (e ▸ h)
      have hcn : c ≠ '\n' := fun e => h2 (e ▸ h)
      simp [crlfByte, hcr, hcn]
  have htake : (str "PING " ++ rest).take 5 = str "PING " := by
    have h5 : (str "PING ").length = 5 := by decide
    rw [← h5, List.take_left]
  have hset : (str "PING " ++ rest).set 1 'O' = str "PONG " ++ rest := by
    show ('P' :: 'I' :: 'N' :: 'G' :: ' ' :: rest).set 1 'O' =
      'P' :: 'O' :: 'N' :: 'G' :: ' ' :: rest
    simp [List.set]
  rw [irc_handle_ping_head _ (by rw [hline0, htake]), hline0, hset]

/-- C2, witness: the spec's round-trip example "PING :xyz" → "PONG :xyz". -/
theorem ping_reply_witness :
    (irc_handle ((str "PING " ++ str ":xyz") ++ str "\r\n")).ircMsgs.head? =
      some (str "PONG " ++ str ":xyz") :=
  ping_reply (str ":xyz") (by decide) (by decide)

/-- C1.  For a local input line `L` (pipe or program stream) with no
embedded terminator whose length fits the 450-byte reserve after the
addressing prefix, `text_handle` passes exactly
"PRIVMSG " ++ channel ++ " :" ++ L to `irc_write`, the wire bytes are that
frame followed by CRLF, and their total length is at most 512.  The bound
`|L| + |channel| ≤ 438` is precisely "the line plus its terminator fits
the `450 - (10 + |channel|)`-byte destination buffer"; `main` enforces
`|channel| ≤ 200`. -/
theorem local_line_frame (channel L rest : Str)
    (hch : channel.length ≤ 200) (hchn : '\n' ∉ channel)
    (hL1 : '\n' ∉ L) (hL2 : '\r' ∉ L)
    (hlen : L.length + channel.length ≤ 438) :
    text_handle channel (L ++ '\n' :: rest) =
      some ((str "PRIVMSG " ++ (channel ++ str " :")) ++ L, rest)
    ∧ irc_write ((str "PRIVMSG " ++ (channel ++ str " :")) ++ L) =
      ((str "PRIVMSG " ++ (channel ++ str " :")) ++ L) ++ str "\r\n"
    ∧ (irc_write ((str "PRIVMSG " ++ (channel ++ str " :")) ++ L)).length ≤ 512 := by
  have hpre : '\n' ∉ str "PRIVMSG " ++ (channel ++ str " :") := by
    intro hmem
    rcases List.mem_append.mp hmem with h | h
    · exact absurd h (by decide)
    · rcases List.mem_append.mp h with h | h
      · exact hchn h
      · exact absurd h (by decide)
  have hlen91 : (str "PRIVMSG " ++ (channel ++ str " :")).length =
      10 + channel.length := by
    simp [str, List.length_append]
    omega
  have hgl : get_line (L ++ '\n' :: rest) (450 - (10 + channel.length)) =
      (L ++ ['\n'], rest, true) :=
    get_line_complete L rest _ hL1 (by omega)
  have hstrip : ((str "PRIVMSG " ++ (channel ++ str " :")) ++ (L ++ ['\n'])).takeWhile
      (fun c => c != '\n') =
      (str "PRIVMSG " ++ (channel ++ str " :")) ++ L := by
    have hb : (str "PRIVMSG " ++ (channel ++ str " :")) ++ (L ++ ['\n']) =
        ((str "PRIVMSG " ++ (channel ++ str " :")) ++ L) ++ '\n' :: [] := by
      simp [List.append_assoc]
    rw [hb]
    refine takeWhile_append_cons _ _ _ _ ?_ (by decide)
    intro c hc
    have hcn : c ≠ '\n' := by
      intro e
      subst e
      rcases List.mem_append.mp hc with h | h
      · exact hpre h
      · exact hL1 h
    simp [hcn]
  have hwlen : (((str "PRIVMSG " ++ (channel ++ str " :")) ++ L) ++
      str "\r\n").length ≤ 450 := by
    simp only [List.length_append, hlen91]
    have : (str "\r\n").length = 2 := by decide
    omega
  have hwire : irc_write ((str "PRIVMSG " ++ (channel ++ str " :")) ++ L) =
      ((str "PRIVMSG " ++ (channel ++ str " :")) ++ L) ++ str "\r\n" := by
    unfold irc_write
    exact List.take_of_length_le (by omega)
  refine ⟨?_, hwire, ?_⟩
  · unfold text_handle
    rw [if_pos (by omega)]
    simp only [hgl, hstrip]
  · rw [hwire]
    omega

/-- C1, witness: the spec's end-to-end scenario — channel "#test", local
line "hello" — gives the wire frame "PRIVMSG #test :hello\r\n", within the
512-byte ceiling. -/
theorem local_line_frame_witness :
    text_handle (str "#test") (str "hello" ++ '\n' :: []) =
      some (str "PRIVMSG #test :hello", [])
    ∧ irc_write (str "PRIVMSG #test :hello") = str "PRIVMSG #test :hello\r\n"
    ∧ (irc_write (str "PRIVMSG #test :hello")).length ≤ 512 :=
  local_line_frame (str "#test") (str "hello") [] (by decide) (by decide)
    (by decide) (by decide) (by decide)

/-- The `get_line` loop stores at most `len - 1` bytes beyond what was
already in the buffer (the last slot of the destination is kept for the
terminating NUL). -/
lemma get_line_loop_length (len : Nat) (buf s : Str) (n : Option Bool) :
    (get_line_loop len buf s n).1.length ≤ buf.length + (len - 1) := by
  induction len generalizing buf s n with
  | zero => simp [get_line_loop]
  | succ l ih =>
    by_cases hl : l = 0
    · simp [get_line_loop, hl]
    · cases s with
      | nil => simp [get_line_loop, hl]
      | cons c rest =>
        by_cases hc : c = '\n'
        · simp [get_line_loop, hl, hc]
          omega
        · have h := ih (buf ++ [c]) rest (some true)
          simp only [get_line_loop, hl, hc, if_neg, if_false] at h ⊢
          simp only [List.length_append, List.length_cons,
            List.length_nil] at h ⊢
          omega

/-- C9, counterexample.  The claim says embedded line terminators are
stripped before the frame is built.  For the local line "a\rb" (stream
"a\rb\n"), `text_handle` only strips the first '\n' (`strchr(line, '\n')`),
so the carriage return stays in the frame: the text still contains '\r'
and the wire bytes "PRIVMSG #test :a\rb\r\n" carry an embedded CR before
the terminator. -/
theorem embedded_cr_counterexample :
    text_handle (str "#test") (str "a\rb\n") =
      some (str "PRIVMSG #test :a\rb", [])
    ∧ '\r' ∈ str "PRIVMSG #test :a\rb"
    ∧ irc_write (str "PRIVMSG #test :a\rb") =
      str "PRIVMSG #test :a\rb\r\n" := by decide

/-- C9, amended.  `text_handle` strips line feeds only: whatever the local
input holds, the text handed to `irc_write` contains no '\n' (the reader
already splits local input at each LF, and the first LF in the buffer
truncates it), so the wire output for one local line is exactly one
LF-terminated write — the frame plus CRLF, carrying exactly one line
feed.  Embedded carriage returns are not stripped and pass through (see
the counterexample). -/
theorem one_line_per_local_line (channel stream t rest' : Str)
    (h : text_handle channel stream = some (t, rest')) :
    '\n' ∉ t ∧ irc_write t = t ++ str "\r\n"
    ∧ (t ++ str "\r\n").count '\n' = 1 := by
  unfold text_handle at h
  split at h
  case isFalse => exact absurd h (by simp)
  case isTrue hguard =>
    simp only [Option.some.injEq, Prod.mk.injEq] at h
    obtain ⟨ht, -⟩ := h
    have hnoLF : '\n' ∉ t := by
      intro hmem
      rw [← ht] at hmem
      have := List.mem_takeWhile_imp hmem
      simp at this
    have htlen : t.length ≤ 449 := by
      have h1 : t.length ≤ (str "PRIVMSG " ++ (channel ++ str " :") ++
          (get_line stream (450 - (10 + channel.length))).1).length := by
        rw [← ht]
        exact (List.takeWhile_prefix _).length_le
      have h2 : (get_line stream (450 - (10 + channel.length))).1.length ≤
          450 - (10 + channel.length) - 1 := by
        have := get_line_loop_length (450 - (10 + channel.length)) [] stream none
        simpa [get_line] using this
      have hp8 : (str "PRIVMSG ").length = 8 := by decide
      have hc2 : (str " :").length = 2 := by decide
      simp only [List.length_append] at h1
      rw [hp8, hc2] at h1
      omega
    refine ⟨hnoLF, ?_, ?_⟩
    · unfold irc_write
      refine List.take_of_length_le ?_
      have : (str "\r\n").length = 2 := by decide
      simp only [List.length_append]
      omega
    · rw [List.count_append]
      rw [List.count_eq_zero.mpr hnoLF]
      decide

/-- C9, amended claim witness: for channel "#test" and local stream
"a\rb\n" the emitted text has no line feed and the wire output carries
exactly one. -/
theorem one_line_per_local_line_witness :
    '\n' ∉ str "PRIVMSG #test :a\rb"
    ∧ irc_write (str "PRIVMSG #test :a\rb") =
      str "PRIVMSG #test :a\rb" ++ str "\r\n"
    ∧ (str "PRIVMSG #test :a\rb" ++ str "\r\n").count '\n' = 1 :=
  one_line_per_local_line (str "#test") (str "a\rb\n") _ [] (by decide)

/-- With the field lengths `main` permits in practice (channels are checked
to 200 bytes; the other fields bounded likewise), none of the handshake
messages reaches `snprintf`'s 1023-byte truncation point. -/
lemma irc_connect_msgs_clean (cfg : Config)
    (hn : cfg.nickname.length ≤ 200) (hs : cfg.server.length ≤ 200)
    (hf : cfg.fullname.length ≤ 200)
    (hc : cfg.channel.length ≤ 200)
    (hp : ∀ pw, cfg.nspasswd = some pw → pw.length ≤ 200) :
    irc_connect_msgs cfg =
      [str "NICK " ++ cfg.nickname,
       str "USER " ++ (cfg.nickname ++ (str " localhost " ++
         (cfg.server ++ (str " :" ++ cfg.fullname))))]
      ++ (match cfg.nspasswd with
          | some pw =>
            [str "PRIVMSG NickServ :identify " ++
               (cfg.nickname ++ (str " " ++ pw))]
          | none => [])
      ++ [str "JOIN " ++ cfg.channel] := by
  have e1 : (str "NICK ").length = 5 := by decide
  have e2 : (str "USER ").length = 5 := by decide
  have e3 : (str " localhost ").length = 11 := by decide
  have e4 : (str " :").length = 2 := by decide
  have e5 : (str "PRIVMSG NickServ :identify ").length = 27 := by decide
  have e6 : (str " ").length = 1 := by decide
  have e7 : (str "JOIN ").length = 5 := by decide
  have m1 : snprintf1023 (str "NICK " ++ cfg.nickname) =
      str "NICK " ++ cfg.nickname :=
    snprintf1023_eq _ (by simp only [List.length_append, e1]; omega)
  have m2 : snprintf1023 (str "USER " ++ (cfg.nickname ++ (str " localhost " ++
      (cfg.server ++ (str " :" ++ cfg.fullname))))) =
      str "USER " ++ (cfg.nickname ++ (str " localhost " ++
      (cfg.server ++ (str " :" ++ cfg.fullname)))) :=
    snprintf1023_eq _
      (by simp only [List.length_append, e2, e3, e4]; omega)
  have m4 : snprintf1023 (str "JOIN " ++ cfg.channel) =
      str "JOIN " ++ cfg.channel :=
    snprintf1023_eq _ (by simp only [List.length_append, e7]; omega)
  unfold irc_connect_msgs
  rw [m1, m2, m4]
  cases hnp : cfg.nspasswd with
  | none => rfl
  | some pw =>
    have hpw := hp pw hnp
    have m3 : snprintf1023 (str "PRIVMSG NickServ :identify " ++
        (cfg.nickname ++ (str " " ++ pw))) =
        str "PRIVMSG NickServ :identify " ++ (cfg.nickname ++ (str " " ++ pw)) :=
      snprintf1023_eq _
        (by simp only [List.length_append, e5, e6]; omega)
    simp only [m3]

/-- C3.  On a successful connect, `irc_connect` sends, in this order:
"NICK <nick>", "USER <nick> localhost <server> :<fullname>" (the declared
display name), "PRIVMSG NickServ :identify <nick> <password>" exactly when
a password is configured, and "JOIN <channel>"; it then resets the idle
timer (`recv_time`) to the current time.  When opening the transport
fails, the process exits with failure status (code 1), with no retry. -/
theorem connect_handshake (cfg : Config) (connectOk : Bool) (now : Nat)
    (hn : cfg.nickname.length ≤ 200) (hs : cfg.server.length ≤ 200)
    (hf : cfg.fullname.length ≤ 200) (hc : cfg.channel.length ≤ 200)
    (hp : ∀ pw, cfg.nspasswd = some pw → pw.length ≤ 200) :
    (connectOk = false → irc_connect cfg connectOk now = Except.error 1)
    ∧ (connectOk = true → irc_connect cfg connectOk now = Except.ok (
        [str "NICK " ++ cfg.nickname,
         str "USER " ++ (cfg.nickname ++ (str " localhost " ++
           (cfg.server ++ (str " :" ++ cfg.fullname))))]
        ++ (match cfg.nspasswd with
            | some pw =>
              [str "PRIVMSG NickServ :identify " ++
                 (cfg.nickname ++ (str " " ++ pw))]
            | none => [])
        ++ [str "JOIN " ++ cfg.channel], now)) := by
  constructor
  · intro h
    subst h
    rfl
  · intro h
    subst h
    rw [show irc_connect cfg true now = Except.ok (irc_connect_msgs cfg, now)
      from rfl]
    rw [irc_connect_msgs_clean cfg hn hs hf hc hp]

/-- C3, witness: with a NickServ password configured, the handshake at
time 42 is NICK, USER (with the display name), the identify message, JOIN,
and the timer is reset to 42; without a working transport the exit status
is 1. -/
theorem connect_handshake_witness :
    irc_connect cfgP true 42 = Except.ok (
      [str "NICK bot",
       str "USER bot localhost irc.example :Bot Name",
       str "PRIVMSG NickServ :identify bot hunter2",
       str "JOIN #test"], 42)
    ∧ irc_connect cfgP false 42 = Except.error 1 := by
  constructor
  · exact (connect_handshake cfgP true 42 (by decide) (by decide) (by decide)
      (by decide) (fun pw hpw => by
        have h : some (str "hunter2") = some pw := hpw
        injection h with h
        rw [← h]
        decide)).2 rfl
  · exact (connect_handshake cfgP false 42 (by decide) (by decide) (by decide)
      (by decide) (fun pw hpw => by
        have h : some (str "hunter2") = some pw := hpw
        injection h with h
        rw [← h]
        decide)).1 rfl

/-- C4.  At a timeout wake-up (no source ready), when the elapsed time
since the last received line exceeds 600 seconds
(`time(NULL) > recv_time + 600`), the disconnect policy runs exactly once:
with reconnect disabled the process exits with failure status (code 1,
sending nothing); with reconnect enabled and the transport unavailable the
re-connect itself exits with code 1; with reconnect enabled and a working
transport the full connect handshake is re-run (NICK, USER, optional
identify, JOIN) and the timer resets to `now`, followed by the tick's
keepalive probe. -/
theorem idle_timeout_policy (cfg : Config) (connectOk : Bool)
    (now recvTime : Nat) (hidle : recvTime + 600 < now)
    (hn : cfg.nickname.length ≤ 200) (hs : cfg.server.length ≤ 200)
    (hf : cfg.fullname.length ≤ 200) (hc : cfg.channel.length ≤ 200)
    (hp : ∀ pw, cfg.nspasswd = some pw → pw.length ≤ 200) :
    (cfg.reconnect = false →
       main_step cfg connectOk now recvTime PollOutcome.pollTimeout =
         StepResult.halt [] 1)
    ∧ (cfg.reconnect = true → connectOk = false →
       main_step cfg connectOk now recvTime PollOutcome.pollTimeout =
         StepResult.halt [] 1)
    ∧ (cfg.reconnect = true → connectOk = true →
       main_step cfg connectOk now recvTime PollOutcome.pollTimeout =
         StepResult.cont (
           ([str "NICK " ++ cfg.nickname,
             str "USER " ++ (cfg.nickname ++ (str " localhost " ++
               (cfg.server ++ (str " :" ++ cfg.fullname))))]
            ++ (match cfg.nspasswd with
                | some pw =>
                  [str "PRIVMSG NickServ :identify " ++
                     (cfg.nickname ++ (str " " ++ pw))]
                | none => [])
            ++ [str "JOIN " ++ cfg.channel])
           ++ [str "PING :" ++ cfg.server]) now) := by
  have hprobe : snprintf1023 (str "PING :" ++ cfg.server) =
      str "PING :" ++ cfg.server := by
    refine snprintf1023_eq _ ?_
    have h6 : (str "PING :").length = 6 := by decide
    simp only [List.length_append, h6]
    omega
  refine ⟨?_, ?_, ?_⟩
  · intro hr
    simp only [main_step]
    rw [if_pos hidle]
    simp [irc_disconnect, hr]
  · intro hr hok
    simp only [main_step]
    rw [if_pos hidle]
    simp [irc_disconnect, irc_connect, hr, hok]
  · intro hr hok
    simp only [main_step]
    rw [if_pos hidle]
    simp only [irc_disconnect, irc_connect, hr, hok, if_true,
      irc_connect_msgs_clean cfg hn hs hf hc hp, hprobe]

/-- C4, witness: at `now = 601` with `recv_time = 0` (601 > 600), a
configuration with reconnect and a password re-runs the full handshake and
resets the timer to 601; the same wake-up with reconnect disabled exits
with code 1. -/
theorem idle_timeout_policy_witness :
    main_step cfgP true 601 0 PollOutcome.pollTimeout =
      StepResult.cont
        ([str "NICK bot",
          str "USER bot localhost irc.example :Bot Name",
          str "PRIVMSG NickServ :identify bot hunter2",
          str "JOIN #test",
          str "PING :irc.example"]) 601
    ∧ main_step cfgNoRe true 601 0 PollOutcome.pollTimeout =
      StepResult.halt [] 1 := by
  constructor
  · have h := (idle_timeout_policy cfgP true 601 0 (by omega) (by decide)
      (by decide) (by decide) (by decide) (fun pw hpw => by
        have hq : some (str "hunter2") = some pw := hpw
        injection hq with hq
        rw [← hq]
        decide)).2.2 rfl rfl
    exact h
  · exact (idle_timeout_policy cfgNoRe true 601 0 (by omega) (by decide)
      (by decide) (by decide) (by decide) (fun pw hpw => by cases hpw)).1 rfl

/-- The probe detector only looks at the first five bytes, which survive
`snprintf`'s 1023-byte truncation whenever the format prefix itself has at
least five bytes. -/
lemma pingTest_snprintf (a x : Str) (h5 : 5 ≤ a.length) :
    pingTest (snprintf1023 (a ++ x)) = (a.take 5 == str "PING ") := by
  unfold pingTest snprintf1023
  rw [List.take_take]
  have hm : (5 : Nat) ⊓ 1023 = 5 := by decide
  rw [hm, List.take_append_eq_append_take]
  have h0 : 5 - a.length = 0 := by omega
  rw [h0]
  simp

/-- None of the connect-handshake messages looks like a keepalive probe:
their first five bytes are "NICK ", "USER ", "PRIVM" or "JOIN ". -/
lemma countP_connect (cfg : Config) :
    (irc_connect_msgs cfg).countP pingTest = 0 := by
  have e1 : pingTest (snprintf1023 (str "NICK " ++ cfg.nickname)) = false := by
    rw [pingTest_snprintf _ _ (by decide)]
    decide
  have e2 : pingTest (snprintf1023 (str "USER " ++ (cfg.nickname ++
      (str " localhost " ++ (cfg.server ++ (str " :" ++ cfg.fullname)))))) =
      false := by
    rw [pingTest_snprintf _ _ (by decide)]
    decide
  have e4 : pingTest (snprintf1023 (str "JOIN " ++ cfg.channel)) = false := by
    rw [pingTest_snprintf _ _ (by decide)]
    decide
  unfold irc_connect_msgs
  cases hnp : cfg.nspasswd with
  | none =>
    simp [List.countP_append, List.countP_cons, e1, e2, e4]
  | some pw =>
    have e3 : pingTest (snprintf1023 (str "PRIVMSG NickServ :identify " ++
        (cfg.nickname ++ (str " " ++ pw)))) = false := by
      rw [pingTest_snprintf _ _ (by decide)]
      decide
    simp [List.countP_append, List.countP_cons, e1, e2, e3, e4]

/-- C5, counterexample.  The claim says every timeout wake-up with no
source ready sends exactly one keepalive probe, regardless of the
idle-check outcome.  With reconnect disabled and the idle threshold
exceeded (now = 601, recv_time = 0), the idle-check terminates the process
(`exit(EXIT_FAILURE)` inside `irc_disconnect`) before the probe line is
reached: zero probes are sent, not one. -/
theorem probe_skipped_counterexample :
    probeCount (main_step cfgNoRe true 601 0 PollOutcome.pollTimeout) ≠ 1
    ∧ probeCount (main_step cfgNoRe true 601 0 PollOutcome.pollTimeout) = 0 := by
  decide

/-- C5, amended.  Whenever the timeout wake-up does not terminate the
process (the idle-check passed, or reconnect was enabled and the re-connect
succeeded), exactly one keepalive probe is sent, and it is the last message
of the wake-up — "PING :" ++ server, built by `snprintf`.  When the
idle-check exits the process (reconnect disabled, or the re-connect's
transport fails), no probe is sent. -/
theorem probe_per_timeout (cfg : Config) (connectOk : Bool)
    (now recvTime : Nat) (msgs : List Str) (rt : Nat)
    (h : main_step cfg connectOk now recvTime PollOutcome.pollTimeout =
      StepResult.cont msgs rt) :
    msgs.countP pingTest = 1
    ∧ msgs.getLast? = some (snprintf1023 (str "PING :" ++ cfg.server)) := by
  have hprobe : pingTest (snprintf1023 (str "PING :" ++ cfg.server)) = true := by
    rw [pingTest_snprintf _ _ (by decide)]
    decide
  simp only [main_step] at h
  cases heq : (if recvTime + 600 < now then irc_disconnect cfg connectOk now
      else Except.ok ([], recvTime)) with
  | error c =>
    rw [heq] at h
    exact StepResult.noConfusion h
  | ok p =>
    obtain ⟨m, rt2⟩ := p
    rw [heq] at h
    simp only [StepResult.cont.injEq] at h
    obtain ⟨hm, -⟩ := h
    have hm0 : m.countP pingTest = 0 := by
      split at heq
      · unfold irc_disconnect irc_connect at heq
        split at heq
        · split at heq
          · simp only [Except.ok.injEq, Prod.mk.injEq] at heq
            obtain ⟨hmc, -⟩ := heq
            rw [← hmc]
            exact countP_connect cfg
          · exact Except.noConfusion heq
        · exact Except.noConfusion heq
      · simp only [Except.ok.injEq, Prod.mk.injEq] at heq
        obtain ⟨hmc, -⟩ := heq
        rw [← hmc]
        rfl
    rw [← hm]
    constructor
    · rw [List.countP_append, hm0]
      simp [List.countP_cons, hprobe]
    · exact List.getLast?_concat _

/-- C5, amended claim witness: a quiet timeout tick (now = 0, timer fresh)
continues with exactly one probe, which is the final message. -/
theorem probe_per_timeout_witness :
    ([snprintf1023 (str "PING :" ++ cfgW.server)] : List Str).countP pingTest = 1
    ∧ ([snprintf1023 (str "PING :" ++ cfgW.server)] : List Str).getLast? =
      some (snprintf1023 (str "PING :" ++ cfgW.server)) :=
  probe_per_timeout cfgW true 0 0 _ 0 rfl
